import Mathlib

/-!
Shallow embedding of the kiosk slideshow core (`src/js/slideshow.js`) of the
louisville-kiosk repository, together with theorems settling the frozen claims
about its specification.

Modelling conventions:
* JS strings are Lean `String` (a structure over `List Char`); the character
  transformations of `slugify` are modelled on `List Char`.
* JS `toLowerCase` is modelled as the ASCII lowercase map applied per
  character (`jsToLower`); the regex classes `\w` and `\s` are modelled by
  the decidable character predicates `isWordChar` and `isJsSpace`.
* JS numbers used as weights/scores are modelled as `ℚ` (exact rationals);
  `Math.random()` draws are passed in explicitly as `ℚ` parameters.
* JS `Date` values are local-time millisecond timestamps modelled as `Int`;
  `setHours(0,0,0,0)` is `floorToDay` (flooring to a multiple of a day).
* The JS `Map` used for the recency ledger is an insertion-ordered
  association list `Ledger` with `Map.get`/`Map.set`/`Map.clear` semantics.
* The rotation interval handle (`this.rotationInterval`) is modelled as a
  `Bool` (armed / not armed); the body of the `setInterval` callback is the
  explicit step function `rotationTick`.
* DOM operations (`showSlide`, `renderSlides`, pause indicator, console
  logging) do not touch scheduler state and are omitted.
-/

namespace Kiosk

/-- ASCII uppercase letter: the `A`–`Z` range. -/
def isUpper (c : Char) : Bool := 65 ≤ c.toNat && c.toNat ≤ 90

/-- ASCII lowercase letter: the `a`–`z` range. -/
def isLower (c : Char) : Bool := 97 ≤ c.toNat && c.toNat ≤ 122

/-- ASCII digit `0`–`9`. -/
def isDigit (c : Char) : Bool := 48 ≤ c.toNat && c.toNat ≤ 57

/-- The JS regex class `\s`: space, tab/newline controls, and the Unicode
space characters matched by JavaScript regular expressions. -/
def isJsSpace (c : Char) : Bool :=
  let n := c.toNat
  n = 32 || (9 ≤ n && n ≤ 13) || n = 0xa0 || n = 0x1680 ||
    (0x2000 ≤ n && n ≤ 0x200a) || n = 0x2028 || n = 0x2029 ||
    n = 0x202f || n = 0x205f || n = 0x3000 || n = 0xfeff

/-- The JS regex class `\w`: `[A-Za-z0-9_]` (code point 95 is `_`). -/
def isWordChar (c : Char) : Bool :=
  isUpper c || isLower c || isDigit c || c.toNat = 95

/-- Characters kept by the first `slugify` replacement, which deletes every
character matching `[^\w\s-]` (code point 45 is `-`). -/
def isKept (c : Char) : Bool := isWordChar c || isJsSpace c || c.toNat = 45

/-- Characters matched by the second `slugify` replacement's class
`[\s_-]`. -/
def isCollapsible (c : Char) : Bool := isJsSpace c || c.toNat = 95 || c.toNat = 45

/-- `text.toLowerCase()` per character (ASCII range, as relevant here: every
character surviving the `slugify` filter is ASCII). -/
def jsToLower (c : Char) : Char :=
  if 65 ≤ c.toNat && c.toNat ≤ 90 then Char.ofNat (c.toNat + 32) else c

/-- Helper for the replacement `.replace(/[\s_-]+/g, '-')`. The `Bool`
argument records whether the previous character belonged to a collapsible
run: the first character of each run emits a single `'-'`, the rest of the
run is skipped. -/
def collapseAux : Bool → List Char → List Char
  | _, [] => []
  | true, c :: cs =>
    if isCollapsible c then collapseAux true cs
    else c :: collapseAux false cs
  | false, c :: cs =>
    if isCollapsible c then '-' :: collapseAux true cs
    else c :: collapseAux false cs

/-- The replacement `.replace(/[\s_-]+/g, '-')`: each maximal run of
collapsible characters becomes a single hyphen. -/
def collapseRuns (l : List Char) : List Char := collapseAux false l

/-- The replacement `.replace(/^-+|-+$/g, '')`: drop the leading run and the
trailing run of hyphens. -/
def trimHyphens (l : List Char) : List Char :=
  (((l.dropWhile (· == '-')).reverse.dropWhile (· == '-'))).reverse

/-- `slugify(text)` from `slideshow.js`, on character lists: lowercase, delete
`[^\w\s-]`, collapse `[\s_-]+` runs to `-`, trim leading/trailing hyphens. -/
def slugify (l : List Char) : List Char :=
  trimHyphens (collapseRuns ((l.map jsToLower).filter isKept))

/-- `slugify` on `String`, the type of the JS values it is applied to. -/
def slugifyStr (s : String) : String := String.mk (slugify s.data)

/-! ### Data model -/

/-- One raw event record from `events.yaml` (§ its `time` field is the parsed
`Date`, modelled as a local-time millisecond timestamp). -/
structure EventRec where
  title : String
  time : Int
  location : String := ""
  is_major : Bool := false
deriving DecidableEq, Repr

/-- Raw business record (the fields the scheduler core inspects). -/
structure BizRec where
  name : String
deriving DecidableEq, Repr

/-- Raw town-fact record. -/
structure FactRec where
  content : String
deriving DecidableEq, Repr

/-- Raw town-image record. -/
structure ImgRec where
  title : String
deriving DecidableEq, Repr

/-- A playlist slide as built by `buildPlaylist`: a JS object with a `type`
tag and the fields the scheduler reads (`name`/`title`/`content`/`time`/
`events`/`weight`/`animate`). Absent JS fields are `none` / defaults. -/
structure Slide where
  type : String
  name : Option String := none
  title : Option String := none
  content : Option String := none
  time : Option Int := none
  is_major : Bool := false
  location : Option String := none
  events : List EventRec := []
  weight : ℚ := 0
  animate : Bool := false
deriving DecidableEq, Repr

/-- The `this.weights.event` block of the constructor configuration. -/
structure EventWeights where
  next7Days : ℚ := 2
  days8to30 : ℚ := 1
  days31Plus : ℚ := 0
  major : ℚ := 1

/-- The `this.weights` master weight configuration of the constructor. -/
structure Weights where
  business : ℚ := 2
  fact : ℚ := 1
  image : ℚ := 1
  dailyEvents : ℚ := 2
  event : EventWeights := {}

/-- The weight configuration instance built in the constructor. -/
def weights : Weights := {}

/-- Milliseconds per day, the JS constant `1000 * 60 * 60 * 24`. -/
def msPerDay : Int := 86400000

/-- `d.setHours(0, 0, 0, 0)`: floor a local-time timestamp to local
midnight. -/
def floorToDay (t : Int) : Int := msPerDay * (Int.fdiv t msPerDay)

/-- `calculateEventWeight(event)` with the current instant `now` passed
explicitly (the JS reads `new Date()`). -/
def calculateEventWeight (event : EventRec) (now : Int) : ℚ :=
  let nowMid := floorToDay now
  let eventMid := floorToDay event.time
  let daysUntil : Int := Int.fdiv (eventMid - nowMid) msPerDay
  if daysUntil < 0 then 0
  else if daysUntil ≤ 7 then weights.event.next7Days
  else if daysUntil ≤ 30 then weights.event.days8to30
  else if event.is_major then weights.event.major else weights.event.days31Plus

/-- `getTodaysEvents(events)` with the current instant `now` passed
explicitly: keep the events whose timestamp lies in `[today, tomorrow)`. -/
def getTodaysEvents (events : List EventRec) (now : Int) : List EventRec :=
  let today := floorToDay now
  let tomorrow := today + msPerDay
  events.filter (fun event => today ≤ event.time && event.time < tomorrow)

/-- `s.substring(0, 50)` on a Lean string. -/
def substrTo50 (s : String) : String := String.mk (s.data.take 50)

/-- `getUniqueId(slide)`. Fields that would be `undefined` in JS are read
with a `""` default (the populations built by `buildPlaylist` always carry
the field that their type tag reads); the `default` branch's
`JSON.stringify(slide)` payload is not needed by any claim and is modelled
by the tag alone. -/
def getUniqueId (slide : Slide) : String :=
  if slide.type = "business" then "business:" ++ slide.name.getD ""
  else if slide.type = "fact" then "fact:" ++ substrTo50 (slide.content.getD "")
  else if slide.type = "image" then "image:" ++ slide.title.getD ""
  else if slide.type = "major-event" then
    "event:" ++ slide.title.getD "" ++ ":" ++ toString (slide.time.getD 0)
  else if slide.type = "daily-events" then "daily-events"
  else "unknown:"

/-- The recency ledger `this.slideStats`, a JS `Map` modelled as an
insertion-ordered association list. -/
def Ledger : Type := List (String × Nat)

instance : DecidableEq Ledger :=
  inferInstanceAs (DecidableEq (List (String × Nat)))

/-- `map.get(key)` on the ledger. -/
def Ledger.get (m : Ledger) (k : String) : Option Nat :=
  match m with
  | [] => none
  | (k', v) :: rest => if k' = k then some v else Ledger.get rest k

/-- `map.set(key, value)` on the ledger: replace in place, else append. -/
def Ledger.set (m : Ledger) (k : String) (v : Nat) : Ledger :=
  match m with
  | [] => [(k, v)]
  | (k', v') :: rest =>
    if k' = k then (k, v) :: rest else (k', v') :: Ledger.set rest k v

/-- `Array.from(map.values()).reduce((sum, val) => sum + val, 0)`. -/
def Ledger.sumValues (m : Ledger) : Nat :=
  (m.map Prod.snd).foldl (· + ·) 0

/-- `calculateSlideScore(slide)` with the ledger passed explicitly. -/
def calculateSlideScore (stats : Ledger) (slide : Slide) : ℚ :=
  let uniqueId := getUniqueId slide
  let timesShown : Nat := (stats.get uniqueId).getD 0
  let recencyMultiplier : ℚ := 1 / ((timesShown : ℚ) + 1)
  slide.weight * recencyMultiplier

/-- The `for (const item of scores)` loop body of `weightedRandomSelect`:
subtract each score from the running draw and return the first index at which
the draw drops to `≤ 0`. -/
def wrsLoop : List (Nat × ℚ) → ℚ → Option Nat
  | [], _ => none
  | item :: rest, random =>
    let random := random - item.2
    if random ≤ 0 then some item.1 else wrsLoop rest random

/-- `weightedRandomSelect(scores)` with the uniform draw `u ∈ [0,1)` of
`Math.random()` passed explicitly. The fallback reads
`scores[scores.length - 1].idx` (on an empty array JS would fault; the model
totalises it with index `0`, and the population is never empty here). -/
def weightedRandomSelect (scores : List (Nat × ℚ)) (u : ℚ) : Nat :=
  let totalScore := scores.foldl (fun sum item => sum + item.2) 0
  let random := u * totalScore
  match wrsLoop scores random with
  | some idx => idx
  | none => (scores.getLast?.getD (0, 0)).1

/-- The trailing `this.slides.map(slide => ({...slide, animate: ...}))` of
`buildPlaylist`: each slide at position `i` receives the `i`-th Bernoulli
draw of the `Math.random() < this.animationProbability` stream `anim`. -/
def assignAnimate (anim : Nat → Bool) : Nat → List Slide → List Slide
  | _, [] => []
  | i, s :: rest => { s with animate := anim i } :: assignAnimate anim (i + 1) rest

/-- `buildPlaylist(businesses, facts, images, events)`; `now` is the current
instant and `anim` the animation draw stream. Returns the new
`this.slides`. -/
def buildPlaylist (businesses : List BizRec) (facts : List FactRec)
    (images : List ImgRec) (events : List EventRec) (now : Int)
    (anim : Nat → Bool) : List Slide :=
  let majorEvents := events.filter (fun e => e.is_major)
  let dailyEvents := events.filter (fun e => !e.is_major)
  let allContent : List Slide :=
    businesses.map (fun b =>
        { type := "business", name := some b.name, weight := weights.business })
      ++ facts.map (fun f =>
        { type := "fact", content := some f.content, weight := weights.fact })
      ++ images.map (fun i =>
        { type := "image", title := some i.title, weight := weights.image })
      ++ majorEvents.map (fun e =>
        { type := "major-event", title := some e.title, time := some e.time,
          is_major := e.is_major, location := some e.location,
          weight := calculateEventWeight e now })
  let todaysEvents := getTodaysEvents dailyEvents now
  let allContent :=
    if todaysEvents.length > 0 then
      allContent ++
        [{ type := "daily-events", events := todaysEvents,
           weight := weights.dailyEvents }]
    else allContent
  let filteredContent := allContent.filter (fun slide => slide.weight > 0)
  assignAnimate anim 0 filteredContent

/-! ### Playback state and transitions -/

/-- The mutable fields of `KioskSlideshow` that the scheduler core touches.
`rotationInterval` is `true` when the interval handle is non-null;
`locationHash` is `window.location.hash` without its leading `#`. -/
structure KioskState where
  slides : List Slide := []
  currentIndex : Nat := 0
  slideStats : Ledger := []
  isPaused : Bool := false
  rotationInterval : Bool := false
  slideHistory : List Nat := []
  locationHash : String := ""
deriving DecidableEq

/-- `selectNextSlide()`: compute scores, draw, and bump the ledger entry of
the selected slide. Returns the selected index and the updated ledger. (The
JS reads `this.slides[selectedIndex]`; the index is always in range for a
non-empty population — `selectNextSlide_lt_length` — and the model leaves
the ledger unchanged on the unreachable out-of-range branch.) -/
def selectNextSlide (st : KioskState) (u : ℚ) : Nat × Ledger :=
  let scores := st.slides.enum.map (fun p => (p.1, calculateSlideScore st.slideStats p.2))
  let selectedIndex := weightedRandomSelect scores u
  match st.slides[selectedIndex]? with
  | some selectedSlide =>
    let uniqueId := getUniqueId selectedSlide
    let timesShown := (st.slideStats.get uniqueId).getD 0
    (selectedIndex, st.slideStats.set uniqueId (timesShown + 1))
  | none => (selectedIndex, st.slideStats)

/-- The shared history-push fragment: `this.slideHistory.push(idx)` followed
by `if (length > 10) shift()`. -/
def pushBounded (h : List Nat) (idx : Nat) : List Nat :=
  let h := h ++ [idx]
  if h.length > 10 then h.tail else h

/-- `stopRotation()`. -/
def stopRotation (st : KioskState) : KioskState :=
  if st.rotationInterval then { st with rotationInterval := false } else st

/-- `startRotation()`: refuses to arm while already armed, paused, or while a
hash is present; otherwise arms the interval. -/
def startRotation (st : KioskState) : KioskState :=
  if st.rotationInterval || st.isPaused || st.locationHash ≠ "" then st
  else { st with rotationInterval := true }

/-- The body of the `setInterval` callback registered by `startRotation`
(one `TimerTick`): push history, select, apply the ledger-reset threshold
check, display. -/
def rotationTick (st : KioskState) (u : ℚ) : KioskState :=
  let hist := pushBounded st.slideHistory st.currentIndex
  let sel := selectNextSlide st u
  let totalShown := Ledger.sumValues sel.2
  let stats := if totalShown ≥ st.slides.length * 3 then ([] : Ledger) else sel.2
  { st with slideHistory := hist, currentIndex := sel.1, slideStats := stats }

/-- `togglePause()`. -/
def togglePause (st : KioskState) : KioskState :=
  if st.isPaused then startRotation { st with isPaused := false }
  else stopRotation { st with isPaused := true }

/-- `nextSlide()` (`ManualNext`) with the selection draw passed explicitly. -/
def nextSlide (st : KioskState) (u : ℚ) : KioskState :=
  let st :=
    if st.rotationInterval then
      { st with rotationInterval := false, isPaused := true }
    else st
  let hist := pushBounded st.slideHistory st.currentIndex
  let sel := selectNextSlide st u
  { st with slideHistory := hist, currentIndex := sel.1, slideStats := sel.2 }

/-- `previousSlide()` (`ManualPrevious`). -/
def previousSlide (st : KioskState) : KioskState :=
  let st :=
    if st.rotationInterval then
      { st with rotationInterval := false, isPaused := true }
    else st
  match st.slideHistory.getLast? with
  | some idx => { st with slideHistory := st.slideHistory.dropLast, currentIndex := idx }
  | none => st

/-- The success path of `refreshData()` (`RefreshCompleted`): rebuild the
playlist from freshly fetched collections, clear the ledger, reset the index
to 0 and display slide 0. DOM re-rendering has no scheduler state. -/
def refreshData (st : KioskState) (businesses : List BizRec)
    (facts : List FactRec) (images : List ImgRec) (events : List EventRec)
    (now : Int) (anim : Nat → Bool) : KioskState :=
  { st with
    slides := buildPlaylist businesses facts images events now anim
    slideStats := []
    currentIndex := 0 }

/-- The JS truthiness fallback `a || b` for an optional string field:
`undefined` and `""` both fall through. -/
def truthyOr (a : Option String) (b : String) : String :=
  match a with
  | some s => if s = "" then b else s
  | none => b

/-- `slide.name || slide.title || ''`. -/
def displayName (slide : Slide) : String :=
  truthyOr slide.name (truthyOr slide.title "")

/-- The `for` loop of `getSlideIndexFromHash`, scanning from index `i`. -/
def hashScan (hash : String) : List Slide → Nat → Nat
  | [], _ => 0
  | slide :: rest, i =>
    if slugifyStr (displayName slide) = hash then i else hashScan hash rest (i + 1)

/-- `getSlideIndexFromHash()` with the hash token (the fragment without its
leading `#`) passed explicitly. -/
def getSlideIndexFromHash (slides : List Slide) (hash : String) : Nat :=
  if hash = "" then 0 else hashScan hash slides 0

/-! ### Operation sequences (for the history-bound claim) -/

/-- The two population-preserving rotation operations the history-bound claim
quantifies over, each carrying its selection draw. -/
inductive RotOp where
  | manualNext (u : ℚ)
  | timerTick (u : ℚ)

/-- Apply one rotation operation. -/
def applyRotOp (st : KioskState) : RotOp → KioskState
  | .manualNext u => nextSlide st u
  | .timerTick u => rotationTick st u

/-- Run a sequence of rotation operations. -/
def runOps (st : KioskState) (ops : List RotOp) : KioskState :=
  ops.foldl applyRotOp st

/-- The indices pushed onto history by a run of consecutive `ManualNext`
calls: before each call the then-current index is pushed. -/
def manualNextTraj (st : KioskState) : List ℚ → List Nat
  | [] => []
  | u :: us => st.currentIndex :: manualNextTraj (nextSlide st u) us

/-! ### Properties of `slugify` -/

/-- Characters that may appear in a slug besides hyphens: lowercase ASCII
letters and digits. -/
def isSolid (c : Char) : Bool := isLower c || isDigit c

/-- The no-two-adjacent-collapsible-characters relation used to describe
`collapseRuns` output. -/
def NoColl (a b : Char) : Prop :=
  ¬(isCollapsible a = true ∧ isCollapsible b = true)

theorem char_eq_of_toNat_eq {a b : Char} (h : a.toNat = b.toNat) : a = b := by
  have h2 : Char.ofNat a.toNat = Char.ofNat b.toNat := by rw [h]
  rwa [Char.ofNat_toNat, Char.ofNat_toNat] at h2

theorem not_collapsible_of_solid {c : Char} (h : isSolid c = true) :
    isCollapsible c = false := by
  simp only [isSolid, isLower, isDigit, Bool.or_eq_true, Bool.and_eq_true,
    decide_eq_true_eq] at h
  simp only [isCollapsible, isJsSpace, Bool.or_eq_false_iff, Bool.and_eq_false_iff,
    decide_eq_false_iff_not, Bool.not_eq_true, decide_eq_true_eq] at *
  omega

theorem toNat_jsToLower_lt (c : Char) : (jsToLower c).toNat < 65 ∨ 90 < (jsToLower c).toNat := by
  unfold jsToLower
  by_cases h : (65 ≤ c.toNat && c.toNat ≤ 90) = true
  · rw [if_pos h]
    simp only [Bool.and_eq_true, decide_eq_true_eq] at h
    have hval : (Char.ofNat (c.toNat + 32)).toNat = c.toNat + 32 := by
      have hv : Nat.isValidChar (c.toNat + 32) := Or.inl (by omega)
      simp only [Char.ofNat, Char.toNat] at *
      rw [dif_pos hv]
      simp [Char.ofNatAux, UInt32.toNat, BitVec.toNat_ofNat]
    omega
  · rw [if_neg h]
    simp only [Bool.and_eq_true, decide_eq_true_eq, not_and, Nat.not_le] at h
    omega

theorem jsToLower_eq_self {c : Char} (h : isSolid c = true ∨ c = '-') :
    jsToLower c = c := by
  have hn : c.toNat < 65 ∨ 90 < c.toNat := by
    rcases h with h | h
    · simp only [isSolid, isLower, isDigit, Bool.or_eq_true, Bool.and_eq_true,
        decide_eq_true_eq] at h
      omega
    · subst h
      decide
  unfold jsToLower
  rw [if_neg]
  simp only [Bool.and_eq_true, decide_eq_true_eq, not_and, Nat.not_le]
  omega

theorem isKept_of_slugChar {c : Char} (h : isSolid c = true ∨ c = '-') :
    isKept c = true := by
  rcases h with h | h
  · simp only [isSolid, Bool.or_eq_true] at h
    simp only [isKept, isWordChar, Bool.or_eq_true]
    rcases h with h | h
    · exact Or.inl (Or.inl (Or.inl (Or.inl (Or.inr h))))
    · exact Or.inl (Or.inl (Or.inl (Or.inr h)))
  · subst h
    rfl

/-- Every character emitted by `collapseAux` is either a hyphen or a
non-collapsible character of the input. -/
theorem mem_collapseAux {c : Char} :
    ∀ (flag : Bool) (l : List Char), c ∈ collapseAux flag l →
      c = '-' ∨ (c ∈ l ∧ isCollapsible c = false)
  | _, [], h => by simp [collapseAux] at h
  | true, d :: ds, h => by
    rw [collapseAux] at h
    by_cases hd : isCollapsible d = true
    · rw [if_pos hd] at h
      rcases mem_collapseAux true ds h with h' | h'
      · exact Or.inl h'
      · exact Or.inr ⟨List.mem_cons_of_mem _ h'.1, h'.2⟩
    · rw [if_neg hd] at h
      rcases List.mem_cons.1 h with h' | h'
      · subst h'
        exact Or.inr ⟨List.mem_cons_self _ _, Bool.not_eq_true _ ▸ hd⟩
      · rcases mem_collapseAux false ds h' with h'' | h''
        · exact Or.inl h''
        · exact Or.inr ⟨List.mem_cons_of_mem _ h''.1, h''.2⟩
  | false, d :: ds, h => by
    rw [collapseAux] at h
    by_cases hd : isCollapsible d = true
    · rw [if_pos hd] at h
      rcases List.mem_cons.1 h with h' | h'
      · exact Or.inl h'
      · rcases mem_collapseAux true ds h' with h'' | h''
        · exact Or.inl h''
        · exact Or.inr ⟨List.mem_cons_of_mem _ h''.1, h''.2⟩
    · rw [if_neg hd] at h
      rcases List.mem_cons.1 h with h' | h'
      · subst h'
        exact Or.inr ⟨List.mem_cons_self _ _, Bool.not_eq_true _ ▸ hd⟩
      · rcases mem_collapseAux false ds h' with h'' | h''
        · exact Or.inl h''
        · exact Or.inr ⟨List.mem_cons_of_mem _ h''.1, h''.2⟩

/-- After a run has been entered, the next character `collapseAux` emits is
not collapsible. -/
theorem head_collapseAux_true {c : Char} :
    ∀ l : List Char, (collapseAux true l).head? = some c → isCollapsible c = false
  | [], h => by simp [collapseAux] at h
  | d :: ds, h => by
    rw [collapseAux] at h
    by_cases hd : isCollapsible d = true
    · rw [if_pos hd] at h
      exact head_collapseAux_true ds h
    · rw [if_neg hd] at h
      simp only [List.head?_cons, Option.some.injEq] at h
      subst h
      exact Bool.not_eq_true _ ▸ hd

/-- `collapseAux` never emits two adjacent collapsible characters. -/
theorem chain'_collapseAux :
    ∀ (flag : Bool) (l : List Char), List.Chain' NoColl (collapseAux flag l)
  | _, [] => by simp [collapseAux]
  | true, d :: ds => by
    rw [collapseAux]
    by_cases hd : isCollapsible d = true
    · rw [if_pos hd]
      exact chain'_collapseAux true ds
    · rw [if_neg hd]
      refine List.chain'_cons'.2 ⟨?_, chain'_collapseAux false ds⟩
      intro y _ hcontra
      exact hd hcontra.1
  | false, d :: ds => by
    rw [collapseAux]
    by_cases hd : isCollapsible d = true
    · rw [if_pos hd]
      refine List.chain'_cons'.2 ⟨?_, chain'_collapseAux true ds⟩
      intro y hy hcontra
      rw [head_collapseAux_true ds hy] at hcontra
      exact absurd hcontra.2 (by simp)
    · rw [if_neg hd]
      refine List.chain'_cons'.2 ⟨?_, chain'_collapseAux false ds⟩
      intro y _ hcontra
      exact hd hcontra.1

theorem map_id_of_mem {f : Char → Char} :
    ∀ {l : List Char}, (∀ c ∈ l, f c = c) → l.map f = l
  | [], _ => rfl
  | c :: cs, h => by
    rw [List.map_cons, h c (List.mem_cons_self _ _),
      map_id_of_mem (fun d hd => h d (List.mem_cons_of_mem _ hd))]

/-- Once every collapsible character is a lone hyphen with non-collapsible
neighbours, `collapseAux false` is the identity. -/
theorem collapseAux_fixed :
    ∀ l : List Char, (∀ c ∈ l, isSolid c = true ∨ c = '-') →
      List.Chain' NoColl l → collapseAux false l = l
  | [], _, _ => rfl
  | c :: cs, hmem, hchain => by
    have htail := (List.chain'_cons'.1 hchain).2
    have hhead := (List.chain'_cons'.1 hchain).1
    have hmemtail : ∀ d ∈ cs, isSolid d = true ∨ d = '-' :=
      fun d hd => hmem d (List.mem_cons_of_mem _ hd)
    rcases hmem c (List.mem_cons_self _ _) with hc | hc
    · rw [collapseAux, if_neg (by simp [not_collapsible_of_solid hc]),
        collapseAux_fixed cs hmemtail htail]
    · subst hc
      have hcoll : isCollapsible '-' = true := by decide
      rw [collapseAux, if_pos hcoll]
      have hstep : collapseAux true cs = collapseAux false cs := by
        cases cs with
        | nil => rfl
        | cons y ys =>
          have hy : isCollapsible y = false := by
            have := hhead y rfl
            simp only [NoColl, not_and] at this
            exact Bool.not_eq_true _ ▸ this rfl
          rw [collapseAux, collapseAux, if_neg (by simp [hy]), if_neg (by simp [hy])]
      rw [hstep, collapseAux_fixed cs hmemtail htail]

/-- `trimHyphens` removes a prefix and a suffix: decomposition of the
original list around it. -/
theorem trimHyphens_decomp (l : List Char) :
    l = l.takeWhile (· == '-') ++
      (trimHyphens l ++
        (((l.dropWhile (· == '-')).reverse.takeWhile (· == '-')).reverse)) := by
  conv_lhs => rw [← List.takeWhile_append_dropWhile (· == '-') l]
  congr 1
  conv_lhs => rw [← List.reverse_reverse (l.dropWhile (· == '-')),
    ← List.takeWhile_append_dropWhile (· == '-') (l.dropWhile (· == '-')).reverse]
  rw [List.reverse_append]
  rfl

theorem mem_trimHyphens {c : Char} {l : List Char} (h : c ∈ trimHyphens l) :
    c ∈ l := by
  rw [trimHyphens_decomp l]
  exact List.mem_append.2 (Or.inr (List.mem_append.2 (Or.inl h)))

theorem chain'_trimHyphens {R : Char → Char → Prop} {l : List Char}
    (h : List.Chain' R l) : List.Chain' R (trimHyphens l) := by
  rw [trimHyphens_decomp l] at h
  exact ((List.chain'_append.1 (List.chain'_append.1 h).2.1)).1

theorem head?_dropWhile (p : Char → Bool) {c : Char} :
    ∀ l : List Char, (l.dropWhile p).head? = some c → p c = false
  | [], h => by simp at h
  | a :: l, h => by
    rw [List.dropWhile_cons] at h
    by_cases ha : p a = true
    · rw [if_pos ha] at h
      exact head?_dropWhile p l h
    · rw [if_neg ha] at h
      simp only [List.head?_cons, Option.some.injEq] at h
      subst h
      exact Bool.not_eq_true _ ▸ ha

theorem dropWhile_head_eq_self (p : Char → Bool) :
    ∀ l : List Char, (∀ c, l.head? = some c → p c = false) → l.dropWhile p = l
  | [], _ => rfl
  | a :: l, h => by
    rw [List.dropWhile_cons, if_neg (by simp [h a rfl])]

theorem getLast?_trimHyphens {c : Char} {l : List Char}
    (h : (trimHyphens l).getLast? = some c) : (c == '-') = false := by
  unfold trimHyphens at h
  rw [List.getLast?_reverse] at h
  exact head?_dropWhile (fun x => x == '-') _ h

theorem head?_trimHyphens {c : Char} {l : List Char}
    (h : (trimHyphens l).head? = some c) : (c == '-') = false := by
  have hd : (l.dropWhile (· == '-')).head? = some c := by
    conv_lhs =>
      rw [← List.reverse_reverse (l.dropWhile (· == '-')),
        ← List.takeWhile_append_dropWhile (· == '-') (l.dropWhile (· == '-')).reverse,
        List.reverse_append]
    cases he : trimHyphens l with
    | nil => rw [he] at h; simp at h
    | cons x xs =>
      rw [he] at h
      simp only [List.head?_cons, Option.some.injEq] at h
      subst h
      have : (trimHyphens l) ++ ((l.dropWhile (· == '-')).reverse.takeWhile (· == '-')).reverse
          = x :: (xs ++ ((l.dropWhile (· == '-')).reverse.takeWhile (· == '-')).reverse) := by
        rw [he]; simp
      rw [show ((l.dropWhile (· == '-')).reverse.dropWhile (· == '-')).reverse
          = trimHyphens l from rfl, this]
      simp
  exact head?_dropWhile (fun x => x == '-') _ hd

theorem trimHyphens_fixed {l : List Char}
    (h1 : ∀ c, l.head? = some c → (c == '-') = false)
    (h2 : ∀ c, l.getLast? = some c → (c == '-') = false) :
    trimHyphens l = l := by
  unfold trimHyphens
  rw [dropWhile_head_eq_self (fun x => x == '-') l h1,
    dropWhile_head_eq_self (fun x => x == '-') l.reverse
      (fun c hc => h2 c (by rwa [List.head?_reverse] at hc)),
    List.reverse_reverse]

/-- Every character of a slug is a lowercase ASCII letter, a digit or a
hyphen. -/
theorem mem_slugify {c : Char} {l : List Char} (h : c ∈ slugify l) :
    isSolid c = true ∨ c = '-' := by
  unfold slugify at h
  have h2 := mem_trimHyphens h
  rcases mem_collapseAux false _ h2 with h3 | h3
  · exact Or.inr h3
  · left
    have h4 := List.mem_filter.1 h3.1
    have h5 := h3.2
    have hkept := h4.2
    rcases List.mem_map.1 h4.1 with ⟨d, _, hd⟩
    have hupper : (jsToLower d).toNat < 65 ∨ 90 < (jsToLower d).toNat :=
      toNat_jsToLower_lt d
    rw [hd] at hupper
    simp only [isKept, isWordChar, isUpper, isLower, isDigit, isJsSpace,
      Bool.or_eq_true, Bool.and_eq_true, decide_eq_true_eq] at hkept
    simp only [isCollapsible, isJsSpace, Bool.or_eq_false_iff, Bool.and_eq_false_iff,
      decide_eq_false_iff_not, Bool.not_eq_true, Bool.or_eq_true, Bool.and_eq_true,
      decide_eq_true_eq, Nat.not_le, Nat.not_lt] at h5
    simp only [isSolid, isLower, isDigit, Bool.or_eq_true, Bool.and_eq_true,
      decide_eq_true_eq]
    omega

/-- A slug is a fixed point of `slugify`. -/
theorem slugify_fixed {t : List Char}
    (hmem : ∀ c ∈ t, isSolid c = true ∨ c = '-')
    (hchain : List.Chain' NoColl t)
    (hhead : ∀ c, t.head? = some c → (c == '-') = false)
    (hlast : ∀ c, t.getLast? = some c → (c == '-') = false) :
    slugify t = t := by
  unfold slugify
  rw [map_id_of_mem (fun c hc => jsToLower_eq_self (hmem c hc)),
    List.filter_eq_self.2 (fun c hc => isKept_of_slugChar (hmem c hc))]
  show trimHyphens (collapseAux false t) = t
  rw [collapseAux_fixed t hmem hchain]
  exact trimHyphens_fixed hhead hlast

theorem slugify_idem (l : List Char) : slugify (slugify l) = slugify l := by
  refine slugify_fixed (fun c hc => mem_slugify hc) ?_ ?_ ?_
  · exact chain'_trimHyphens (chain'_collapseAux false _)
  · exact fun c hc => head?_trimHyphens hc
  · exact fun c hc => getLast?_trimHyphens hc

/-! ### Claim theorems -/

/-- C10: `slugify` is idempotent — slugifying an already-slugified string
returns it unchanged, so a token already in slug form is a fixed point of
slugification. -/
theorem slugify_idempotent (s : String) :
    slugifyStr (slugifyStr s) = slugifyStr s :=
  congrArg String.mk (slugify_idem s.data)

/-- C9: the proximity-bucketed event weight is exactly `0` for past events,
`2` within 7 days, `1` within 8–30 days, and beyond 30 days `1` for major
events and `0` otherwise, with `daysUntil` the floored day difference of the
two local midnights. -/
theorem calculateEventWeight_buckets (event : EventRec) (now : Int) :
    calculateEventWeight event now =
      (let daysUntil : Int :=
        Int.fdiv (floorToDay event.time - floorToDay now) msPerDay
      if daysUntil < 0 then 0
      else if daysUntil ≤ 7 then 2
      else if daysUntil ≤ 30 then 1
      else if event.is_major then 1 else 0) := rfl

/-- C5: the selection score of a slide is its weight times the recency
multiplier `1/(timesShown+1)` with `timesShown` read from the ledger by the
slide's identity key (default 0); concretely a weight-2 slide shown once
scores `1`, equal to an unshown weight-1 slide. -/
theorem calculateSlideScore_formula :
    (∀ (stats : Ledger) (slide : Slide),
      calculateSlideScore stats slide =
        slide.weight * (1 / (((stats.get (getUniqueId slide)).getD 0 : ℚ) + 1))) ∧
    calculateSlideScore
        [(getUniqueId { type := "business", name := some "B", weight := 2 }, 1)]
        { type := "business", name := some "B", weight := 2 } = 1 ∧
    calculateSlideScore [] { type := "fact", content := some "F", weight := 1 } = 1 := by
  refine ⟨fun stats slide => rfl, ?_, ?_⟩
  · simp only [calculateSlideScore, Ledger.get, if_pos rfl, Option.getD_some]
    norm_num
  · simp only [calculateSlideScore, Ledger.get, Option.getD_none]
    norm_num

/-- C2 (counterexample): after a successful refresh the history stack is not
cleared — a state refreshed with history `[5]` still has history `[5]`,
contradicting the claim that refresh clears the history. -/
theorem refreshData_keeps_history_cex :
    (refreshData { slideHistory := [5] } [] [] [] [] 0 (fun _ => false)).slideHistory
        = [5] ∧
    ([5] : List Nat) ≠ [] := ⟨rfl, by decide⟩

/-- C2 (amended): a successful refresh replaces the population wholesale,
clears the ledger, resets the index to 0 (slide 0 is displayed), and leaves
the history stack, pause flag, timer handle and hash untouched — the history
stack is not cleared. -/
theorem refreshData_effects (st : KioskState) (bs : List BizRec)
    (fs : List FactRec) (im : List ImgRec) (ev : List EventRec) (now : Int)
    (anim : Nat → Bool) :
    (refreshData st bs fs im ev now anim).slides
        = buildPlaylist bs fs im ev now anim ∧
    (refreshData st bs fs im ev now anim).slideStats = [] ∧
    (refreshData st bs fs im ev now anim).currentIndex = 0 ∧
    (refreshData st bs fs im ev now anim).slideHistory = st.slideHistory ∧
    (refreshData st bs fs im ev now anim).isPaused = st.isPaused ∧
    (refreshData st bs fs im ev now anim).rotationInterval = st.rotationInterval ∧
    (refreshData st bs fs im ev now anim).locationHash = st.locationHash :=
  ⟨rfl, rfl, rfl, rfl, rfl, rfl, rfl⟩

/-- C3 (counterexample): in the hash-locked state (`paused`, timer disarmed,
hash present) `togglePause` is not a no-op — it flips the paused flag from
`true` to `false`. -/
theorem togglePause_hash_locked_flips_paused_cex :
    ({ isPaused := true, locationHash := "x" } : KioskState).isPaused = true ∧
    (togglePause { isPaused := true, locationHash := "x" }).isPaused = false :=
  ⟨rfl, by decide⟩

/-- C3 (amended): in the hash-locked state `togglePause` leaves the timer
handle, current index, history stack, recency ledger and population
unchanged, but it does flip the paused flag to `false`; the timer stays
disarmed only because `startRotation` refuses to arm while a hash is
present. -/
theorem togglePause_hash_locked_effects (st : KioskState)
    (hhash : st.locationHash ≠ "") (hp : st.isPaused = true)
    (hr : st.rotationInterval = false) :
    (togglePause st).isPaused = false ∧
    (togglePause st).rotationInterval = false ∧
    (togglePause st).currentIndex = st.currentIndex ∧
    (togglePause st).slideHistory = st.slideHistory ∧
    (togglePause st).slideStats = st.slideStats ∧
    (togglePause st).slides = st.slides := by
  simp [togglePause, startRotation, hp, hr, hhash]

/-- Witness for C3 (amended) at the concrete hash-locked state with hash
`"x"`. -/
theorem togglePause_hash_locked_effects_witness :
    (({ isPaused := true, locationHash := "x" } : KioskState).locationHash ≠ "") ∧
    (({ isPaused := true, locationHash := "x" } : KioskState).isPaused = true) ∧
    (({ isPaused := true, locationHash := "x" } : KioskState).rotationInterval = false) ∧
    ((togglePause { isPaused := true, locationHash := "x" }).isPaused = false ∧
      (togglePause { isPaused := true, locationHash := "x" }).rotationInterval = false ∧
      (togglePause { isPaused := true, locationHash := "x" }).currentIndex
        = ({ isPaused := true, locationHash := "x" } : KioskState).currentIndex ∧
      (togglePause { isPaused := true, locationHash := "x" }).slideHistory
        = ({ isPaused := true, locationHash := "x" } : KioskState).slideHistory ∧
      (togglePause { isPaused := true, locationHash := "x" }).slideStats
        = ({ isPaused := true, locationHash := "x" } : KioskState).slideStats ∧
      (togglePause { isPaused := true, locationHash := "x" }).slides
        = ({ isPaused := true, locationHash := "x" } : KioskState).slides) :=
  ⟨by decide, rfl, rfl,
    togglePause_hash_locked_effects _ (by decide) rfl rfl⟩

/-- C1 (counterexample): deep-link resolution compares the slide's slug with
the raw token, not with the slugified token. For the population
`[Other, Bittersweet Cafe]` and the token `"Bittersweet Cafe"`, the first
(and only) slide whose slug equals the slugified token sits at index 1, yet
resolution returns 0. -/
theorem deepLink_token_not_slugified_cex :
    getSlideIndexFromHash
        [{ type := "business", name := some "Other", weight := 2 },
          { type := "business", name := some "Bittersweet Cafe", weight := 2 }]
        "Bittersweet Cafe" = 0 ∧
    slugifyStr (displayName
        { type := "business", name := some "Bittersweet Cafe", weight := 2 })
      = slugifyStr "Bittersweet Cafe" ∧
    slugifyStr (displayName { type := "business", name := some "Other", weight := 2 })
      ≠ slugifyStr "Bittersweet Cafe" := by
  refine ⟨by decide, by decide, by decide⟩

theorem hashScan_eq_findIdx (hash : String) :
    ∀ (l : List Slide) (i : Nat),
      hashScan hash l i =
        (List.findIdx? (fun s => decide (slugifyStr (displayName s) = hash)) l i).getD 0
  | [], _ => rfl
  | slide :: rest, i => by
    rw [hashScan, List.findIdx?_cons]
    by_cases h : slugifyStr (displayName slide) = hash
    · rw [if_pos h, if_pos (by simp [h])]
      rfl
    · rw [if_neg h, if_neg (by simp [h])]
      exact hashScan_eq_findIdx hash rest (i + 1)

/-- C1 (amended): deep-link resolution returns the index of the first slide
whose slug equals the token verbatim (the token itself is not slugified);
an empty token or no match yields 0. -/
theorem getSlideIndexFromHash_eq_findIdx (slides : List Slide) (hash : String) :
    getSlideIndexFromHash slides hash =
      if hash = "" then 0
      else (List.findIdx?
        (fun s => decide (slugifyStr (displayName s) = hash)) slides).getD 0 := by
  unfold getSlideIndexFromHash
  by_cases h : hash = ""
  · rw [if_pos h, if_pos h]
  · rw [if_neg h, if_neg h]
    exact hashScan_eq_findIdx hash slides 0

theorem wrsLoop_some_mem :
    ∀ (scores : List (Nat × ℚ)) (r : ℚ) (i : Nat),
      wrsLoop scores r = some i → i ∈ scores.map Prod.fst
  | [], _, _, h => by simp [wrsLoop] at h
  | item :: rest, r, i, h => by
    simp only [wrsLoop] at h
    split at h
    · rw [List.map_cons, ← Option.some.inj h]
      exact List.mem_cons_self _ _
    · exact List.mem_cons_of_mem _ (wrsLoop_some_mem rest _ i h)

/-- C4: weighted random selection always returns an index present in the
scored population — via the accumulating walk when the draw lands inside a
slide's score interval, via the last-index fallback otherwise — and hence
`selectNextSlide` always produces an in-range slide index for a non-empty
population. -/
theorem weightedRandomSelect_in_population :
    (∀ (scores : List (Nat × ℚ)) (u : ℚ), scores ≠ [] →
      weightedRandomSelect scores u ∈ scores.map Prod.fst) ∧
    (∀ (st : KioskState) (u : ℚ), st.slides ≠ [] →
      (selectNextSlide st u).1 < st.slides.length) := by
  have hmain : ∀ (scores : List (Nat × ℚ)) (u : ℚ), scores ≠ [] →
      weightedRandomSelect scores u ∈ scores.map Prod.fst := by
    intro scores u hne
    simp only [weightedRandomSelect]
    cases hl : wrsLoop scores (u * scores.foldl (fun sum item => sum + item.2) 0) with
    | some i =>
      exact wrsLoop_some_mem scores _ i hl
    | none =>
      have hgl : scores.getLast? = some (scores.getLast hne) :=
        List.getLast?_eq_getLast _ hne
      simp only [hgl, Option.getD_some]
      exact List.mem_map_of_mem Prod.fst (List.getLast_mem hne)
  refine ⟨hmain, fun st u hne => ?_⟩
  have hfst : (selectNextSlide st u).1 =
      weightedRandomSelect
        (st.slides.enum.map (fun p => (p.1, calculateSlideScore st.slideStats p.2))) u := by
    simp only [selectNextSlide]
    split <;> rfl
  have hscnn :
      st.slides.enum.map (fun p => (p.1, calculateSlideScore st.slideStats p.2)) ≠ [] := by
    intro hcontra
    have := congrArg List.length hcontra
    simp at this
    exact hne this
  have hmem := hmain _ u hscnn
  rw [List.map_map] at hmem
  have hfst2 :
      (Prod.fst ∘ fun p : Nat × Slide => (p.1, calculateSlideScore st.slideStats p.2))
        = Prod.fst := rfl
  rw [hfst2, List.enum_map_fst] at hmem
  rw [hfst]
  exact List.mem_range.1 hmem

/-- The single business slide used by concrete witnesses. -/
def bizA : Slide := { type := "business", name := some "A", weight := 2 }

/-- Witness for C4 at a singleton score list and a singleton population. -/
theorem weightedRandomSelect_in_population_witness :
    (([((0 : Nat), (2 : ℚ))] : List (Nat × ℚ)) ≠ []) ∧
    weightedRandomSelect [((0 : Nat), (2 : ℚ))] 0
      ∈ ([((0 : Nat), (2 : ℚ))] : List (Nat × ℚ)).map Prod.fst ∧
    (({ slides := [bizA] } : KioskState).slides ≠ []) ∧
    (selectNextSlide { slides := [bizA] } 0).1
      < ({ slides := [bizA] } : KioskState).slides.length := by
  have h1 : (([((0 : Nat), (2 : ℚ))] : List (Nat × ℚ)) ≠ []) := by simp
  have h2 : (({ slides := [bizA] } : KioskState).slides ≠ []) := by simp [bizA]
  exact ⟨h1, weightedRandomSelect_in_population.1 _ 0 h1, h2,
    weightedRandomSelect_in_population.2 _ 0 h2⟩

/-- C6: when, right after a tick's selection, the summed `timesShown` of the
ledger has reached three times the population size, the tick clears the
ledger entirely, so the next score computation sees `timesShown = 0` — i.e.
the bare weight — for every slide. -/
theorem rotationTick_resets_ledger (st : KioskState) (u : ℚ)
    (hthresh : st.slides.length * 3 ≤ Ledger.sumValues (selectNextSlide st u).2) :
    (rotationTick st u).slideStats = ([] : Ledger) ∧
    ∀ slide : Slide,
      calculateSlideScore (rotationTick st u).slideStats slide = slide.weight := by
  have hclear : (rotationTick st u).slideStats = ([] : Ledger) := by
    simp only [rotationTick]
    rw [if_pos hthresh]
  refine ⟨hclear, fun slide => ?_⟩
  rw [hclear]
  simp [calculateSlideScore, Ledger.get]

/-- The concrete pre-threshold state used by the C6 witness: one slide,
already shown twice. -/
def stThresh : KioskState :=
  { slides := [bizA], slideStats := [("business:A", 2)] }

/-- Witness for C6: with one slide already shown twice, the tick's selection
raises the ledger sum to `3 = 3 × 1` and the ledger is cleared. -/
theorem rotationTick_resets_ledger_witness :
    stThresh.slides.length * 3
        ≤ Ledger.sumValues (selectNextSlide stThresh 0).2 ∧
    ((rotationTick stThresh 0).slideStats = ([] : Ledger) ∧
      ∀ slide : Slide,
        calculateSlideScore (rotationTick stThresh 0).slideStats slide
          = slide.weight) := by
  have hsel : selectNextSlide stThresh 0 = (0, [("business:A", 3)]) := by
    simp [selectNextSlide, stThresh, bizA, calculateSlideScore,
      weightedRandomSelect, wrsLoop, getUniqueId, Ledger.get, Ledger.set]
    norm_num
    decide
  have hhyp : stThresh.slides.length * 3
      ≤ Ledger.sumValues (selectNextSlide stThresh 0).2 := by
    rw [hsel]
    decide
  exact ⟨hhyp, rotationTick_resets_ledger stThresh 0 hhyp⟩

theorem pushBounded_length_le {h : List Nat} (hle : h.length ≤ 10) (idx : Nat) :
    (pushBounded h idx).length ≤ 10 := by
  unfold pushBounded
  by_cases hlen : (h ++ [idx]).length > 10
  · rw [if_pos hlen]
    simp only [List.length_tail, List.length_append, List.length_singleton] at *
    omega
  · rw [if_neg hlen]
    omega

theorem applyRotOp_hist (st : KioskState) (op : RotOp) :
    (applyRotOp st op).slideHistory = pushBounded st.slideHistory st.currentIndex := by
  cases op with
  | manualNext u =>
    show (nextSlide st u).slideHistory = _
    unfold nextSlide
    by_cases hr : st.rotationInterval = true
    · rw [if_pos hr]
    · rw [if_neg hr]
  | timerTick u => rfl

theorem runOps_hist_le :
    ∀ (ops : List RotOp) (st : KioskState), st.slideHistory.length ≤ 10 →
      (runOps st ops).slideHistory.length ≤ 10
  | [], _, h => h
  | op :: ops, st, h => by
    show (runOps (applyRotOp st op) ops).slideHistory.length ≤ 10
    refine runOps_hist_le ops _ ?_
    rw [applyRotOp_hist]
    exact pushBounded_length_le h _

theorem runOps_manualNext_hist :
    ∀ (us : List ℚ) (st : KioskState),
      (runOps st (us.map RotOp.manualNext)).slideHistory =
        List.foldl pushBounded st.slideHistory (manualNextTraj st us)
  | [], _ => rfl
  | u :: us, st => by
    show (runOps (applyRotOp st (RotOp.manualNext u)) (us.map RotOp.manualNext)).slideHistory = _
    rw [manualNextTraj, List.foldl_cons]
    have hbase : (nextSlide st u).slideHistory
        = pushBounded st.slideHistory st.currentIndex :=
      applyRotOp_hist st (RotOp.manualNext u)
    rw [show applyRotOp st (RotOp.manualNext u) = nextSlide st u from rfl,
      runOps_manualNext_hist us (nextSlide st u), hbase]

theorem foldl_pushBounded_nil (l : List Nat) :
    List.foldl pushBounded [] l = l.drop (l.length - 10) := by
  induction l using List.reverseRecOn with
  | nil => rfl
  | append_singleton l i ih =>
    rw [List.foldl_append, List.foldl_cons, List.foldl_nil, ih]
    unfold pushBounded
    by_cases hlen : 10 ≤ l.length
    · have hd : (l.drop (l.length - 10)).length = 10 := by
        rw [List.length_drop]
        omega
      rw [if_pos (by simp [hd])]
      have hrhslen : (l ++ [i]).length - 10 = l.length + 1 - 10 := by
        simp
      rw [hrhslen,
        List.drop_append_of_le_length (show l.length + 1 - 10 ≤ l.length by omega),
        ← List.drop_one,
        List.drop_append_of_le_length (by rw [hd]; omega),
        List.drop_drop]
      have harith : l.length - 10 + 1 = l.length + 1 - 10 := by omega
      rw [harith]
    · have h0 : l.length - 10 = 0 := by omega
      rw [h0, List.drop_zero]
      rw [if_neg (by simp; omega)]
      have h1 : (l ++ [i]).length - 10 = 0 := by simp; omega
      rw [h1, List.drop_zero]

theorem manualNextTraj_length :
    ∀ (us : List ℚ) (st : KioskState), (manualNextTraj st us).length = us.length
  | [], _ => rfl
  | _ :: us, st => by
    rw [manualNextTraj, List.length_cons, manualNextTraj_length us, List.length_cons]

/-- C7: the history stack never exceeds 10 entries across any sequence of
`ManualNext`/`TimerTick` operations (push at the back, evict the front), and
after 12 consecutive `ManualNext` calls from an empty history it holds
exactly the 10 most recently pushed indices — the trajectory minus its two
oldest entries. -/
theorem history_bounded :
    (∀ (st : KioskState) (ops : List RotOp), st.slideHistory.length ≤ 10 →
      (runOps st ops).slideHistory.length ≤ 10) ∧
    (∀ (st : KioskState) (us : List ℚ), us.length = 12 → st.slideHistory = [] →
      (runOps st (us.map RotOp.manualNext)).slideHistory.length = 10 ∧
      (runOps st (us.map RotOp.manualNext)).slideHistory
        = (manualNextTraj st us).drop 2) := by
  refine ⟨fun st ops h => runOps_hist_le ops st h, fun st us h12 hnil => ?_⟩
  have htraj := runOps_manualNext_hist us st
  rw [hnil] at htraj
  have hlen : (manualNextTraj st us).length = 12 := by
    rw [manualNextTraj_length us st, h12]
  constructor
  · rw [htraj, foldl_pushBounded_nil, List.length_drop, hlen]
  · rw [htraj, foldl_pushBounded_nil, hlen]

/-- The concrete start state used by the C7 witness. -/
def stHist : KioskState := { slides := [bizA] }

/-- The twelve selection draws used by the C7 witness. -/
def usTwelve : List ℚ := List.replicate 12 0

/-- Witness for C7: the invariant applied to the empty operation sequence,
and the 12-call property applied to twelve concrete `ManualNext` calls. -/
theorem history_bounded_witness :
    (stHist.slideHistory.length ≤ 10 ∧
      (runOps stHist []).slideHistory.length ≤ 10) ∧
    (usTwelve.length = 12 ∧ stHist.slideHistory = [] ∧
      ((runOps stHist (usTwelve.map RotOp.manualNext)).slideHistory.length = 10 ∧
        (runOps stHist (usTwelve.map RotOp.manualNext)).slideHistory
          = (manualNextTraj stHist usTwelve).drop 2)) := by
  have h1 : stHist.slideHistory.length ≤ 10 := by decide
  have h12 : usTwelve.length = 12 := by decide
  exact ⟨⟨h1, history_bounded.1 stHist [] h1⟩,
    ⟨h12, rfl, history_bounded.2 stHist usTwelve h12 rfl⟩⟩

/-- A non-major event at 02:00 on day 0 of the local epoch. -/
def eventLate : EventRec := { title := "A", time := 7200000 }

/-- A non-major event at 01:00 on day 0 of the local epoch. -/
def eventEarly : EventRec := { title := "B", time := 3600000 }

/-- C8 (counterexample): the daily digest keeps the input order of today's
events rather than sorting them — fed `[eventLate, eventEarly]`, the digest
lists them in that order although `eventEarly` starts first. -/
theorem buildPlaylist_digest_unsorted_cex :
    ((buildPlaylist [] [] [] [eventLate, eventEarly] 0 (fun _ => false)).filter
        (fun s => s.type = "daily-events")).map (fun s => s.events)
      = [[eventLate, eventEarly]] ∧
    eventEarly.time < eventLate.time := by
  constructor
  · decide
  · decide

theorem filter_daily_assignAnimate (anim : Nat → Bool) :
    ∀ (i : Nat) (l : List Slide),
      ((assignAnimate anim i l).filter (fun s => s.type = "daily-events")).map
          (fun s => (s.events, s.weight))
        = (l.filter (fun s => s.type = "daily-events")).map
          (fun s => (s.events, s.weight))
  | _, [] => rfl
  | i, s :: rest => by
    rw [assignAnimate]
    simp only [List.filter_cons]
    have hproj : ({ s with animate := anim i } : Slide).type = s.type := rfl
    rw [hproj]
    by_cases hs : s.type = "daily-events"
    · simp only [hs]
      rw [if_pos (by simp), if_pos (by simp)]
      rw [List.map_cons, List.map_cons, filter_daily_assignAnimate anim (i + 1) rest]
    · rw [if_neg (by simp [hs]), if_neg (by simp [hs])]
      exact filter_daily_assignAnimate anim (i + 1) rest

/-- No slide built from the business/fact/image/major-event collections
carries the `daily-events` type tag. -/
theorem allContent_no_daily (bs : List BizRec) (fs : List FactRec)
    (im : List ImgRec) (majors : List EventRec) (now : Int) :
    ∀ s ∈ (bs.map (fun b => ({ type := "business", name := some b.name, weight := weights.business } : Slide)) ++ fs.map (fun f => ({ type := "fact", content := some f.content, weight := weights.fact } : Slide)) ++ im.map (fun i2 => ({ type := "image", title := some i2.title, weight := weights.image } : Slide)) ++ majors.map (fun e => ({ type := "major-event", title := some e.title, time := some e.time, is_major := e.is_major, location := some e.location, weight := calculateEventWeight e now } : Slide))),
      ¬((decide (s.type = "daily-events") && decide (s.weight > 0)) = true) := by
  intro s hs
  simp only [List.mem_append, List.mem_map] at hs
  rcases hs with ((⟨b, _, rfl⟩ | ⟨f, _, rfl⟩) | ⟨i2, _, rfl⟩) | ⟨e, _, rfl⟩ <;> simp

/-- C8 (amended): building the playlist yields at most one daily-events
digest slide — exactly one, of weight 2, containing exactly the non-major
events of today's local date in their input order (not sorted), when at
least one such event exists; none otherwise. -/
theorem buildPlaylist_digest_spec (bs : List BizRec) (fs : List FactRec)
    (im : List ImgRec) (ev : List EventRec) (now : Int) (anim : Nat → Bool) :
    ((buildPlaylist bs fs im ev now anim).filter
        (fun s => s.type = "daily-events")).map (fun s => (s.events, s.weight))
      = if getTodaysEvents (ev.filter (fun e => !e.is_major)) now = [] then []
        else [(getTodaysEvents (ev.filter (fun e => !e.is_major)) now, (2 : ℚ))] := by
  simp only [buildPlaylist]
  rw [filter_daily_assignAnimate]
  by_cases hte : getTodaysEvents (ev.filter (fun e => !e.is_major)) now = []
  · rw [if_pos hte, if_neg (by simp [hte])]
    rw [List.filter_filter]
    rw [List.filter_eq_nil_iff.2
      (allContent_no_daily bs fs im (ev.filter (fun e => e.is_major)) now),
      List.map_nil]
  · rw [if_neg hte, if_pos (by simpa [List.length_pos] using hte)]
    rw [List.filter_filter, List.filter_append]
    rw [List.filter_eq_nil_iff.2
      (allContent_no_daily bs fs im (ev.filter (fun e => e.is_major)) now),
      List.nil_append]
    have hw : (0 : ℚ) < weights.dailyEvents := by
      norm_num [weights]
    simp [hw, weights]

end Kiosk
